import Mathlib

set_option maxHeartbeats 1000000

/-!
Shallow embedding of the arena allocator of `src/include/arena.h` (`ArenaV2`)
and of the STL adapter of `src/include/allocator.h` (`ArenaAllocator`).

Machine addresses are modelled as unbounded naturals.  The buffers that
`::operator new` hands to the arena are represented by a base-address oracle
`Nat → Nat`: `oracle n` is the base address of the n-th `MemBlock` the arena
creates.  The source's bit manipulations — `ptr & (align - 1)` for the
alignment test and `(curr + align - 1) & ~(align - 1)` for rounding up — are
rendered with `%`-arithmetic, which coincides with them for power-of-two
alignment; the source's own comments state exactly this equivalence
(`A % 16 == 0  ⟺  A & 0x0F == 0`, and "rounding up to a multiple of 16").
-/

/-- Source: `inline constexpr size_t DEFAULT_BLOCK_SIZE = 1024;`. -/
def DEFAULT_BLOCK_SIZE : Nat := 1024

/-- Source: `inline constexpr size_t DESTRUCTOR_CHUNK_SIZE = 32;`. -/
def DESTRUCTOR_CHUNK_SIZE : Nat := 32

/-- `sizeof(DestructorChunk)` on an LP64 platform: 32 `DestructorNode`s of two
8-byte pointers each, plus the `size_t n_nodes` and the `prev` pointer. -/
def CHUNK_BYTES : Nat := DESTRUCTOR_CHUNK_SIZE * 16 + 16

/-- `alignof(DestructorChunk)` on an LP64 platform (pointer alignment). -/
def CHUNK_ALIGN : Nat := 8

/-- Source struct `ArenaV2::MemBlock`: an owned byte buffer (`char* buffer`,
modelled by its base address), its capacity `size`, and the bump `offset`. -/
structure MemBlock where
  buffer : Nat
  size : Nat
  offset : Nat
deriving DecidableEq

/-- Source class `ArenaV2`.

`destructor_chain` models the linked list of `DestructorChunk`s hanging off
`destructor_block_latest`: the head of the outer list is the latest chunk, the
`prev` pointers are the tail of the outer list.  A chunk is the list of its
filled `nodes` in array order (`n_nodes` is the inner length); a node is the
registered object's address (its type-erased destructor function is determined
by the object's type and plays no role in any claim).  `destructor_block_tail`
is write-only bookkeeping in the source — it is set and reset but never read
for any observable behaviour — and is elided. -/
structure ArenaV2 where
  destructor_chain : List (List Nat)
  mem_blocks : List MemBlock
  mem_block_latest_idx : Nat
  block_size : Nat
  arena_size : Nat
deriving DecidableEq

/-- The source's round-up `(curr + align - 1) & ~(align - 1)`, written with
`%`: for a power of two `align`, masking the low bits of `x` is `x - x % align`. -/
def align_up (curr align : Nat) : Nat :=
  (curr + align - 1) - (curr + align - 1) % align

/-- Source: `ArenaV2::allocate_from_mem_block` — alignment padding applied to
one block, `none` when the padded request overflows the block. -/
def allocate_from_mem_block (mem_block : MemBlock) (size align : Nat) :
    Option (Nat × MemBlock) :=
  let curr := mem_block.buffer + mem_block.offset
  let aligned := align_up curr align
  let padding := aligned - curr
  let new_offset := mem_block.offset + padding + size
  if new_offset > mem_block.size then none
  else some (aligned, { mem_block with offset := new_offset })

/-- Source: `ArenaV2::add_mem_block` — `emplace_back` a fresh block, make it
the latest, grow `arena_size`. -/
def ArenaV2.add_mem_block (a : ArenaV2) (oracle : Nat → Nat) (size : Nat) :
    ArenaV2 :=
  { a with
    mem_blocks := a.mem_blocks ++ [⟨oracle a.mem_blocks.length, size, 0⟩],
    mem_block_latest_idx := a.mem_blocks.length,
    arena_size := a.arena_size + size }

/-- The block `mem_blocks[mem_block_latest_idx]` the source allocates from.
The dummy default is never reached from a reachable state (the constructor
creates a block immediately and the index always stays in range). -/
def ArenaV2.activeBlock (a : ArenaV2) : MemBlock :=
  a.mem_blocks.getD a.mem_block_latest_idx ⟨0, 0, 0⟩

/-- Source: `ArenaV2::add_new_block_and_allocate` — grow by one block of
`max(size + align - 1, block_size)` bytes and retry on the fresh block. -/
def ArenaV2.add_new_block_and_allocate (a : ArenaV2) (oracle : Nat → Nat)
    (size align : Nat) : Option Nat × ArenaV2 :=
  let new_block_size := max (size + align - 1) a.block_size
  let a1 := a.add_mem_block oracle new_block_size
  match allocate_from_mem_block a1.activeBlock size align with
  | some (ptr, mb2) =>
      (some ptr,
       { a1 with mem_blocks := a1.mem_blocks.set a1.mem_block_latest_idx mb2 })
  | none => (none, a1)

/-- Source: `ArenaV2::allocate` — fast path when the bump pointer already fits
and is aligned, then the padded retry on the active block, then growth. -/
def ArenaV2.allocate (a : ArenaV2) (oracle : Nat → Nat) (size align : Nat) :
    Option Nat × ArenaV2 :=
  let mb := a.activeBlock
  if mb.offset + size ≤ mb.size ∧ (mb.buffer + mb.offset) % align = 0 then
    let mb2 : MemBlock := { mb with offset := mb.offset + size }
    (some (mb.buffer + mb.offset),
     { a with mem_blocks := a.mem_blocks.set a.mem_block_latest_idx mb2 })
  else
    match allocate_from_mem_block mb size align with
    | some (ptr, mb2) =>
        (some ptr,
         { a with mem_blocks := a.mem_blocks.set a.mem_block_latest_idx mb2 })
    | none => a.add_new_block_and_allocate oracle size align

/-- Source: `ArenaV2::allocate_raw` — the public wrapper around `allocate`. -/
def ArenaV2.allocate_raw (a : ArenaV2) (oracle : Nat → Nat) (size align : Nat) :
    Option Nat × ArenaV2 :=
  a.allocate oracle size align

/-- Source: `ArenaV2::get_arena_size`. -/
def ArenaV2.get_arena_size (a : ArenaV2) : Nat := a.arena_size

/-- Source: `ArenaV2::get_single_block_size`. -/
def ArenaV2.get_single_block_size (a : ArenaV2) : Nat := a.block_size

/-- Source: `ArenaV2::get_number_of_allocated_blocks`. -/
def ArenaV2.get_number_of_allocated_blocks (a : ArenaV2) : Nat :=
  a.mem_blocks.length

/-- The order in which `ArenaV2::clear` invokes the registered destructors:
chunks from the latest backwards (following `prev`), and inside a chunk from
`nodes[n_nodes - 1]` down to `nodes[0]`. -/
def clear_invocations (chain : List (List Nat)) : List Nat :=
  match chain with
  | [] => []
  | c :: rest => c.reverse ++ clear_invocations rest

/-- Source: `ArenaV2::clear` — run every registered destructor in the order of
`clear_invocations` (returned as the first component, the observable
destruction trace), drop the chain, zero every block's offset, and reset
`mem_block_latest_idx` to 0. -/
def ArenaV2.clear (a : ArenaV2) : List Nat × ArenaV2 :=
  (clear_invocations a.destructor_chain,
   { a with
     destructor_chain := [],
     mem_blocks := a.mem_blocks.map (fun mb => { mb with offset := 0 }),
     mem_block_latest_idx := 0 })

/-- The effect of `ArenaV2::append_new_destructor` on the chunk chain alone:
start a fresh chunk when there is none or the latest is full, else push into
the latest chunk's node array. -/
def chain_append (chain : List (List Nat)) (obj : Nat) : List (List Nat) :=
  match chain with
  | [] => [[obj]]
  | c :: rest =>
      if c.length = DESTRUCTOR_CHUNK_SIZE then [obj] :: c :: rest
      else (c ++ [obj]) :: rest

/-- Source: `ArenaV2::append_new_destructor`.  When a fresh `DestructorChunk`
is needed it is placement-constructed inside the arena itself via `allocate`;
the first component reports that chunk's address (`none` when no chunk was
created).  The `none` branches of the inner allocations are unreachable — an
allocation with power-of-two alignment always succeeds (`allocate_sound`
below); the source would placement-new through the returned pointer without
checking it. -/
def ArenaV2.append_new_destructor (a : ArenaV2) (oracle : Nat → Nat)
    (obj : Nat) : Option Nat × ArenaV2 :=
  match a.destructor_chain with
  | [] =>
      match a.allocate oracle CHUNK_BYTES CHUNK_ALIGN with
      | (some c, a1) => (some c, { a1 with destructor_chain := [[obj]] })
      | (none, a1) => (none, a1)
  | chunk :: rest =>
      if chunk.length = DESTRUCTOR_CHUNK_SIZE then
        match a.allocate oracle CHUNK_BYTES CHUNK_ALIGN with
        | (some c, a1) =>
            (some c, { a1 with destructor_chain := [obj] :: chunk :: rest })
        | (none, a1) => (none, a1)
      else ((none : Option Nat), { a with destructor_chain := (chunk ++ [obj]) :: rest })

/-- Source: `ArenaV2::create<T>` — allocate `sizeof(T)` at `alignof(T)`,
placement-construct, and register the destructor when `T` is not trivially
destructible.  `size`/`align` stand for `sizeof(T)`/`alignof(T)` and
`nontrivial` for `!std::is_trivially_destructible_v<T>`.  Returns the object
pointer, the address of a `DestructorChunk` freshly allocated inside the arena
(if registration needed one), and the new state. -/
def ArenaV2.create (a : ArenaV2) (oracle : Nat → Nat) (size align : Nat)
    (nontrivial : Bool) : Option Nat × Option Nat × ArenaV2 :=
  match a.allocate oracle size align with
  | (none, a1) => (none, none, a1)
  | (some p, a1) =>
      if nontrivial then
        match a1.append_new_destructor oracle p with
        | (c?, a2) => (some p, c?, a2)
      else (some p, none, a1)

/-- Source: the constructor `ArenaV2(const size_t size)` — record the block
size and `add_mem_block(size)` immediately.  (The default constructor is the
same with `DEFAULT_BLOCK_SIZE`.) -/
def ArenaV2.init (oracle : Nat → Nat) (size : Nat) : ArenaV2 :=
  ArenaV2.add_mem_block
    { destructor_chain := []
      mem_blocks := []
      mem_block_latest_idx := 0
      block_size := size
      arena_size := 0 } oracle size

/-- One `create<T>` request: `sizeof(T)`, `alignof(T)`, and whether `T` has a
non-trivial destructor. -/
structure CreateReq where
  size : Nat
  align : Nat
  nontrivial : Bool
deriving DecidableEq

/-- A run of `allocate_raw` calls, as in the claims about allocation
sequences: fold the requests through the arena. -/
def runAlloc (oracle : Nat → Nat) (reqs : List (Nat × Nat)) (a : ArenaV2) :
    ArenaV2 :=
  match reqs with
  | [] => a
  | (s, al) :: rest => runAlloc oracle rest (a.allocate_raw oracle s al).2

/-- Observables of a run of `create<T>` calls: every byte range the arena
handed out (`trace`, object ranges and internal `DestructorChunk` ranges
alike, as (address, bytes) pairs in the order they were issued), the objects
registered for destruction in registration order (`regs`), and the final
state. -/
structure RunOut where
  trace : List (Nat × Nat)
  regs : List Nat
  state : ArenaV2
deriving DecidableEq

/-- The trace contribution of an internal `DestructorChunk` allocation. -/
def chunkTrace (c? : Option Nat) : List (Nat × Nat) :=
  match c? with
  | some c => [(c, CHUNK_BYTES)]
  | none => []

/-- A run of `create<T>` calls on one arena, collecting the observables. -/
def runCreate (oracle : Nat → Nat) (reqs : List CreateReq) (a : ArenaV2) :
    RunOut :=
  match reqs with
  | [] => ⟨[], [], a⟩
  | r :: rest =>
      match a.create oracle r.size r.align r.nontrivial with
      | (some p, c?, a1) =>
          let out := runCreate oracle rest a1
          ⟨(p, r.size) :: (chunkTrace c? ++ out.trace),
           (if r.nontrivial then p :: out.regs else out.regs),
           out.state⟩
      | (none, _, a1) => runCreate oracle rest a1

/-- `std::numeric_limits<size_type>::max()` for `size_type = std::size_t`. -/
def SIZE_MAX : Nat := 2 ^ 64 - 1

/-- Outcome of `ArenaAllocator<T>::allocate(n)`: the early `nullptr` return,
the thrown `std::bad_array_new_length`, or the value obtained by forwarding to
the engine — `forwarded p bytes align` records the engine's answer `p` and the
arguments `bytes = n * sizeof(T)`, `align = alignof(T)` that were passed to
`allocate_raw`. -/
inductive AdapterResult where
  | nullptr : AdapterResult
  | badArrayNewLength : AdapterResult
  | forwarded : Option Nat → Nat → Nat → AdapterResult
deriving DecidableEq

/-- Source: `ArenaAllocator<T>::allocate(n)` with `sizeofT = sizeof(T)` and
`alignofT = alignof(T)`, acting on the referenced engine's state. -/
def ArenaAllocator.allocate (oracle : Nat → Nat) (sizeofT alignofT : Nat)
    (arena : ArenaV2) (n : Nat) : AdapterResult × ArenaV2 :=
  if n = 0 then (AdapterResult.nullptr, arena)
  else if n > SIZE_MAX / sizeofT then (AdapterResult.badArrayNewLength, arena)
  else
    match arena.allocate_raw oracle (n * sizeofT) alignofT with
    | (p, a1) => (AdapterResult.forwarded p (n * sizeofT) alignofT, a1)

/-- Source class `ArenaAllocator<T>` as a value: the non-owning `ArenaV2*`
(modelled as the engine's address) plus `sizeof(T)`/`alignof(T)` of the
element type the adapter is instantiated at. -/
structure ArenaAllocator where
  elem_size : Nat
  elem_align : Nat
  arena : Nat
deriving DecidableEq

/-- Source: `ArenaAllocator<T>::operator==` — pointer equality of engines. -/
def ArenaAllocator.opEq (a b : ArenaAllocator) : Bool :=
  a.arena == b.arena

/-- Source: `ArenaAllocator<T>::operator!=`. -/
def ArenaAllocator.opNe (a b : ArenaAllocator) : Bool :=
  !(a.opEq b)

/-- Source: the converting (rebinding) constructor
`template<typename U> ArenaAllocator(const ArenaAllocator<U>&)` — the new
element type brings its own `sizeof`/`alignof`, the engine pointer is copied. -/
def ArenaAllocator.rebind (other : ArenaAllocator) (elem_size elem_align : Nat) :
    ArenaAllocator :=
  { elem_size := elem_size, elem_align := elem_align, arena := other.arena }

/-! ### Specification predicates over arena states -/

/-- The i-th block of a state (dummy out of range). -/
def blockOf (a : ArenaV2) (i : Nat) : MemBlock :=
  a.mem_blocks.getD i ⟨0, 0, 0⟩

/-- Well-formedness of a reachable state: the active index is in range and no
block's offset exceeds its capacity. -/
def WF (a : ArenaV2) : Prop :=
  a.mem_block_latest_idx < a.mem_blocks.length ∧
  ∀ mb ∈ a.mem_blocks, mb.offset ≤ mb.size

/-- State `b` extends state `a`: the block sequence is append-only (every
existing block keeps its buffer and capacity) and offsets never rewind. -/
def ArenaExtends (a b : ArenaV2) : Prop :=
  a.mem_blocks.length ≤ b.mem_blocks.length ∧
  ∀ i, i < a.mem_blocks.length →
    (blockOf b i).buffer = (blockOf a i).buffer ∧
    (blockOf b i).size = (blockOf a i).size ∧
    (blockOf a i).offset ≤ (blockOf b i).offset

/-- The byte range `[p, p + s)` lies inside the already-bumped part of some
block of `a`. -/
def InBlocks (a : ArenaV2) (p s : Nat) : Prop :=
  ∃ i, i < a.mem_blocks.length ∧
    (blockOf a i).buffer ≤ p ∧
    p + s ≤ (blockOf a i).buffer + (blockOf a i).offset

/-- The blocks' buffers occupy pairwise disjoint address ranges — what
`::operator new` guarantees for simultaneously live allocations. -/
def BlocksDisj (a : ArenaV2) : Prop :=
  ∀ i, i < a.mem_blocks.length → ∀ j, j < a.mem_blocks.length → i ≠ j →
    (blockOf a i).buffer + (blockOf a i).size ≤ (blockOf a j).buffer ∨
    (blockOf a j).buffer + (blockOf a j).size ≤ (blockOf a i).buffer

/-- The byte ranges `[p, p + s)` and `[q, q + t)` do not overlap. -/
def RangesDisj (p s q t : Nat) : Prop :=
  p + s ≤ q ∨ q + t ≤ p

/-- A concrete base-address oracle used in witnesses and counterexamples:
blocks a kilobyte apart, every base 16-aligned (the default alignment
`::operator new` provides on LP64). -/
def oracle0 : Nat → Nat := fun n => 4096 + 1024 * n

/-! ### List facts used throughout -/

theorem getD_set_self (l : List MemBlock) (i : Nat) (b d : MemBlock)
    (h : i < l.length) : (l.set i b).getD i d = b := by
  simp [List.getD_eq_getElem?_getD, List.getElem?_set_self', h]

theorem getD_set_ne (l : List MemBlock) (i j : Nat) (b d : MemBlock)
    (h : i ≠ j) : (l.set i b).getD j d = l.getD j d := by
  simp [List.getD_eq_getElem?_getD, List.getElem?_set_ne h]

theorem getD_append_last (l : List MemBlock) (b d : MemBlock) :
    (l ++ [b]).getD l.length d = b := by
  simp [List.getD_eq_getElem?_getD]

theorem getD_append_lt (l : List MemBlock) (i : Nat) (b d : MemBlock)
    (h : i < l.length) : (l ++ [b]).getD i d = l.getD i d := by
  simp [List.getD_eq_getElem?_getD, List.getElem?_append_left h]

theorem getD_mem (l : List MemBlock) (i : Nat) (d : MemBlock)
    (h : i < l.length) : l.getD i d ∈ l := by
  have he : l.getD i d = l[i] := by
    simp [List.getD_eq_getElem?_getD, List.getElem?_eq_getElem h]
  rw [he]; exact List.getElem_mem h

theorem set_getD_self (l : List MemBlock) (i : Nat) (d : MemBlock) :
    l.set i (l.getD i d) = l := by
  induction l generalizing i with
  | nil => rfl
  | cons x xs ih => cases i with
    | zero => rfl
    | succ n => simpa using ih n

theorem mem_append_singleton {l : List MemBlock} {x b : MemBlock}
    (h : x ∈ l ++ [b]) : x ∈ l ∨ x = b := by
  rcases List.mem_append.mp h with h | h
  · exact Or.inl h
  · exact Or.inr (List.mem_singleton.mp h)

/-! ### Alignment arithmetic -/

theorem align_up_mod (c al : Nat) (hal : 0 < al) : align_up c al % al = 0 := by
  have hd := Nat.div_add_mod (c + al - 1) al
  have he : align_up c al = al * ((c + al - 1) / al) := by
    unfold align_up; omega
  rw [he]; exact Nat.mul_mod_right _ _

theorem align_up_ge (c al : Nat) (hal : 0 < al) : c ≤ align_up c al := by
  have hm := Nat.mod_lt (c + al - 1) hal
  unfold align_up; omega

theorem align_up_le (c al : Nat) : align_up c al ≤ c + al - 1 := by
  unfold align_up; omega

theorem align_up_of_aligned (c al : Nat) (hal : 0 < al) (hc : c % al = 0) :
    align_up c al = c := by
  have h1 : (c + al - 1) % al = al - 1 := by
    have he : c + al - 1 = c + (al - 1) := by omega
    rw [he, Nat.add_mod, hc]
    simp [Nat.mod_eq_of_lt (show al - 1 < al by omega)]
  unfold align_up; omega

/-! ### Facts about `allocate_from_mem_block` -/

theorem afmb_state {mb : MemBlock} {s al p : Nat} {mb2 : MemBlock}
    (h : allocate_from_mem_block mb s al = some (p, mb2)) :
    mb2.buffer = mb.buffer ∧ mb2.size = mb.size ∧
    mb.offset ≤ mb2.offset ∧ mb2.offset ≤ mb.size := by
  simp only [allocate_from_mem_block] at h
  split at h
  · exact absurd h (by simp)
  · rename_i hle
    injection h with h1
    injection h1 with hp hmb
    subst hmb
    refine ⟨rfl, rfl, by dsimp only; omega, by dsimp only; omega⟩

theorem afmb_ptr {mb : MemBlock} {s al p : Nat} {mb2 : MemBlock}
    (hal : 0 < al)
    (h : allocate_from_mem_block mb s al = some (p, mb2)) :
    mb.buffer + mb.offset ≤ p ∧ p + s = mb.buffer + mb2.offset ∧ p % al = 0 := by
  simp only [allocate_from_mem_block] at h
  split at h
  · exact absurd h (by simp)
  · injection h with h1
    injection h1 with hp hmb
    subst hmb
    have hge := align_up_ge (mb.buffer + mb.offset) al hal
    refine ⟨?_, ?_, ?_⟩
    · rw [← hp]; exact hge
    · rw [← hp]; dsimp only; omega
    · rw [← hp]; exact align_up_mod _ _ hal

theorem afmb_fits (mb : MemBlock) (s al : Nat) (hal : 0 < al)
    (hfit : mb.offset + (al - 1) + s ≤ mb.size) :
    ∃ p mb2, allocate_from_mem_block mb s al = some (p, mb2) := by
  have hle := align_up_le (mb.buffer + mb.offset) al
  have hge := align_up_ge (mb.buffer + mb.offset) al hal
  simp only [allocate_from_mem_block]
  rw [if_neg (by omega)]
  exact ⟨_, _, rfl⟩

theorem afmb_none_no_fast {mb : MemBlock} {s al : Nat} (hal : 0 < al)
    (h : allocate_from_mem_block mb s al = none) :
    ¬(mb.offset + s ≤ mb.size ∧ (mb.buffer + mb.offset) % al = 0) := by
  rintro ⟨h1, h2⟩
  have ha := align_up_of_aligned (mb.buffer + mb.offset) al hal h2
  simp only [allocate_from_mem_block] at h
  split at h
  · rename_i hgt
    rw [ha] at hgt
    omega
  · exact absurd h (by simp)

/-! ### State-extension infrastructure -/

theorem activeBlock_eq_blockOf (a : ArenaV2) :
    a.activeBlock = blockOf a a.mem_block_latest_idx := rfl

theorem add_mem_block_activeBlock (a : ArenaV2) (oracle : Nat → Nat) (s : Nat) :
    (a.add_mem_block oracle s).activeBlock = ⟨oracle a.mem_blocks.length, s, 0⟩ := by
  simp only [ArenaV2.add_mem_block, ArenaV2.activeBlock]
  exact getD_append_last _ _ _

theorem extends_refl (a : ArenaV2) : ArenaExtends a a :=
  ⟨le_refl _, fun _ _ => ⟨rfl, rfl, le_refl _⟩⟩

theorem extends_trans {a b c : ArenaV2} (h1 : ArenaExtends a b)
    (h2 : ArenaExtends b c) : ArenaExtends a c := by
  refine ⟨le_trans h1.1 h2.1, fun i hi => ?_⟩
  have hb := h1.2 i hi
  have hc := h2.2 i (lt_of_lt_of_le hi h1.1)
  exact ⟨hc.1.trans hb.1, hc.2.1.trans hb.2.1, le_trans hb.2.2 hc.2.2⟩

theorem InBlocks_mono {a b : ArenaV2} (h : ArenaExtends a b) {p s : Nat}
    (hp : InBlocks a p s) : InBlocks b p s := by
  obtain ⟨i, hi, h1, h2⟩ := hp
  have hb := h.2 i hi
  exact ⟨i, lt_of_lt_of_le hi h.1, by omega, by omega⟩

theorem BlocksDisj_anti {a b : ArenaV2} (h : ArenaExtends a b)
    (hd : BlocksDisj b) : BlocksDisj a := by
  intro i hi j hj hij
  have hbi := h.2 i hi
  have hbj := h.2 j hj
  have := hd i (lt_of_lt_of_le hi h.1) j (lt_of_lt_of_le hj h.1) hij
  omega

theorem extends_set_active (a : ArenaV2) (mb2 : MemBlock)
    (hbuf : mb2.buffer = a.activeBlock.buffer)
    (hsz : mb2.size = a.activeBlock.size)
    (hoff : a.activeBlock.offset ≤ mb2.offset) :
    ArenaExtends a
      { a with mem_blocks := a.mem_blocks.set a.mem_block_latest_idx mb2 } := by
  refine ⟨by simp, fun i hi => ?_⟩
  by_cases hij : a.mem_block_latest_idx = i
  · subst hij
    have h1 : blockOf
        { a with mem_blocks := a.mem_blocks.set a.mem_block_latest_idx mb2 }
        a.mem_block_latest_idx = mb2 := by
      simp only [blockOf]
      exact getD_set_self _ _ _ _ hi
    rw [h1]
    exact ⟨hbuf, hsz, hoff⟩
  · have h1 : blockOf
        { a with mem_blocks := a.mem_blocks.set a.mem_block_latest_idx mb2 }
        i = blockOf a i := by
      simp only [blockOf]
      exact getD_set_ne _ _ _ _ _ hij
    rw [h1]
    exact ⟨rfl, rfl, le_refl _⟩

theorem wf_set_active (a : ArenaV2) (mb2 : MemBlock) (hwf : WF a)
    (hsz : mb2.size = a.activeBlock.size) (hoff : mb2.offset ≤ mb2.size) :
    WF { a with mem_blocks := a.mem_blocks.set a.mem_block_latest_idx mb2 } := by
  refine ⟨by simpa using hwf.1, fun x hx => ?_⟩
  rcases List.mem_or_eq_of_mem_set hx with hx | hx
  · exact hwf.2 x hx
  · subst hx; exact hoff

/-! ### Unconditional facts about a single `allocate` step -/

theorem extends_add_mem_block (a : ArenaV2) (oracle : Nat → Nat) (s : Nat) :
    ArenaExtends a (a.add_mem_block oracle s) := by
  refine ⟨by simp [ArenaV2.add_mem_block], fun i hi => ?_⟩
  have h1 : blockOf (a.add_mem_block oracle s) i = blockOf a i := by
    simp only [blockOf, ArenaV2.add_mem_block]
    exact getD_append_lt _ _ _ _ hi
  rw [h1]
  exact ⟨rfl, rfl, le_refl _⟩

theorem extends_add_new_block (a : ArenaV2) (oracle : Nat → Nat) (s al : Nat) :
    ArenaExtends a (a.add_new_block_and_allocate oracle s al).2 ∧
    a.arena_size ≤ (a.add_new_block_and_allocate oracle s al).2.arena_size ∧
    (a.add_new_block_and_allocate oracle s al).2.destructor_chain =
      a.destructor_chain ∧
    (a.add_new_block_and_allocate oracle s al).2.block_size = a.block_size ∧
    (a.add_new_block_and_allocate oracle s al).2.mem_blocks.length =
      a.mem_blocks.length + 1 := by
  simp only [ArenaV2.add_new_block_and_allocate]
  rcases hm : allocate_from_mem_block
      ((a.add_mem_block oracle (max (s + al - 1) a.block_size)).activeBlock) s al
    with _ | ⟨q, mb2⟩
  · simp only [hm]
    refine ⟨extends_add_mem_block _ _ _, by simp [ArenaV2.add_mem_block], rfl, rfl,
      by simp [ArenaV2.add_mem_block]⟩
  · simp only [hm]
    have hst := afmb_state hm
    rw [add_mem_block_activeBlock] at hst
    refine ⟨extends_trans (extends_add_mem_block a oracle _)
      (extends_set_active _ _ (by rw [add_mem_block_activeBlock]; exact hst.1)
        (by rw [add_mem_block_activeBlock]; exact hst.2.1)
        (by rw [add_mem_block_activeBlock]; exact hst.2.2.1)), ?_, rfl, rfl, ?_⟩
    · simp [ArenaV2.add_mem_block]
    · simp [ArenaV2.add_mem_block]

theorem allocate_extends (a : ArenaV2) (oracle : Nat → Nat) (s al : Nat) :
    ArenaExtends a (a.allocate oracle s al).2 ∧
    a.arena_size ≤ (a.allocate oracle s al).2.arena_size ∧
    (a.allocate oracle s al).2.destructor_chain = a.destructor_chain ∧
    (a.allocate oracle s al).2.block_size = a.block_size := by
  by_cases hf : (a.activeBlock.offset + s ≤ a.activeBlock.size ∧
      (a.activeBlock.buffer + a.activeBlock.offset) % al = 0)
  · simp only [ArenaV2.allocate, if_pos hf]
    exact ⟨extends_set_active _ _ rfl rfl (by dsimp only; omega), le_refl _,
      by trivial, by trivial⟩
  · rcases hm : allocate_from_mem_block a.activeBlock s al with _ | ⟨q, mb2⟩
    · simp only [ArenaV2.allocate, if_neg hf, hm]
      have h := extends_add_new_block a oracle s al
      exact ⟨h.1, h.2.1, h.2.2.1, h.2.2.2.1⟩
    · simp only [ArenaV2.allocate, if_neg hf, hm]
      have hst := afmb_state hm
      exact ⟨extends_set_active _ _ hst.1 hst.2.1 hst.2.2.1, le_refl _,
        by trivial, by trivial⟩

theorem allocate_mod (a : ArenaV2) (oracle : Nat → Nat) (s al : Nat)
    (hal : 0 < al) {p : Nat} {a2 : ArenaV2}
    (h : a.allocate oracle s al = (some p, a2)) : p % al = 0 := by
  by_cases hf : (a.activeBlock.offset + s ≤ a.activeBlock.size ∧
      (a.activeBlock.buffer + a.activeBlock.offset) % al = 0)
  · simp only [ArenaV2.allocate, if_pos hf] at h
    injection h with h1 h2
    injection h1 with h1
    rw [← h1]
    exact hf.2
  · rcases hm : allocate_from_mem_block a.activeBlock s al with _ | ⟨q, mb2⟩
    · simp only [ArenaV2.allocate, if_neg hf, hm,
        ArenaV2.add_new_block_and_allocate] at h
      rcases hm2 : allocate_from_mem_block
          ((a.add_mem_block oracle (max (s + al - 1) a.block_size)).activeBlock)
          s al with _ | ⟨q2, mb22⟩
      · rw [hm2] at h
        injection h with h1 h2
        exact absurd h1 (by simp)
      · rw [hm2] at h
        injection h with h1 h2
        injection h1 with h1
        rw [← h1]
        exact (afmb_ptr hal hm2).2.2
    · simp only [ArenaV2.allocate, if_neg hf, hm] at h
      injection h with h1 h2
      injection h1 with h1
      rw [← h1]
      exact (afmb_ptr hal hm).2.2

theorem allocate_count (a : ArenaV2) (oracle : Nat → Nat) (s al : Nat) :
    (a.allocate oracle s al).2.mem_blocks.length = a.mem_blocks.length ∨
    (a.allocate oracle s al).2.mem_blocks.length = a.mem_blocks.length + 1 := by
  by_cases hf : (a.activeBlock.offset + s ≤ a.activeBlock.size ∧
      (a.activeBlock.buffer + a.activeBlock.offset) % al = 0)
  · simp only [ArenaV2.allocate, if_pos hf]
    exact Or.inl (by simp)
  · rcases hm : allocate_from_mem_block a.activeBlock s al with _ | ⟨q, mb2⟩
    · simp only [ArenaV2.allocate, if_neg hf, hm]
      exact Or.inr (extends_add_new_block a oracle s al).2.2.2.2
    · simp only [ArenaV2.allocate, if_neg hf, hm]
      exact Or.inl (by simp)

theorem map_zero_set (l : List MemBlock) (i : Nat) (mb2 : MemBlock)
    (hbuf : mb2.buffer = (l.getD i ⟨0, 0, 0⟩).buffer)
    (hsz : mb2.size = (l.getD i ⟨0, 0, 0⟩).size)
    (hi : i < l.length) :
    (l.set i mb2).map (fun mb => { mb with offset := 0 }) =
      l.map (fun mb => { mb with offset := 0 }) := by
  induction l generalizing i with
  | nil => simp at hi
  | cons x xs ih =>
    cases i with
    | zero =>
      simp only [List.getD_cons_zero] at hbuf hsz
      simp only [List.set, List.map_cons]
      congr 1
      cases mb2; cases x
      simp_all
    | succ n =>
      simp only [List.getD_cons_succ] at hbuf hsz
      simp only [List.set, List.map_cons]
      congr 1
      exact ih n hbuf hsz (by simpa using hi)

theorem allocate_clear2 (a : ArenaV2) (oracle : Nat → Nat) (s al : Nat)
    (h : (a.allocate oracle s al).2.mem_blocks.length = a.mem_blocks.length) :
    (ArenaV2.clear (a.allocate oracle s al).2).2 = (ArenaV2.clear a).2 := by
  by_cases hf : (a.activeBlock.offset + s ≤ a.activeBlock.size ∧
      (a.activeBlock.buffer + a.activeBlock.offset) % al = 0)
  · simp only [ArenaV2.allocate, if_pos hf]
    simp only [ArenaV2.clear, ArenaV2.mk.injEq]
    refine ⟨by trivial, ?_, by trivial, by trivial, by trivial⟩
    by_cases hi : a.mem_block_latest_idx < a.mem_blocks.length
    · exact map_zero_set _ _ _ rfl rfl hi
    · rw [List.set_eq_of_length_le (by omega)]
  · rcases hm : allocate_from_mem_block a.activeBlock s al with _ | ⟨q, mb2⟩
    · exfalso
      simp only [ArenaV2.allocate, if_neg hf, hm] at h
      have := (extends_add_new_block a oracle s al).2.2.2.2
      omega
    · simp only [ArenaV2.allocate, if_neg hf, hm]
      simp only [ArenaV2.clear, ArenaV2.mk.injEq]
      have hst := afmb_state hm
      refine ⟨by trivial, ?_, by trivial, by trivial, by trivial⟩
      by_cases hi : a.mem_block_latest_idx < a.mem_blocks.length
      · exact map_zero_set _ _ _ hst.1 hst.2.1 hi
      · rw [List.set_eq_of_length_le (by omega)]

theorem wf_add_mem_block (a : ArenaV2) (oracle : Nat → Nat) (s : Nat)
    (hwf : WF a) : WF (a.add_mem_block oracle s) := by
  refine ⟨by simp [ArenaV2.add_mem_block], fun x hx => ?_⟩
  rcases mem_append_singleton hx with hx | hx
  · exact hwf.2 x hx
  · subst hx; exact Nat.zero_le _

theorem blockOf_set_self (a : ArenaV2) (i : Nat) (mb2 : MemBlock)
    (hi : i < a.mem_blocks.length) :
    blockOf { a with mem_blocks := a.mem_blocks.set i mb2 } i = mb2 := by
  simp only [blockOf]
  exact getD_set_self _ _ _ _ hi

/-- An allocation with positive alignment on a well-formed arena always
succeeds, preserves well-formedness, returns a range inside the bumped part of
the (new) active block, and — when the active block is not fresh — starts at
or after that block's previous bump offset. -/
theorem allocate_sound (a : ArenaV2) (oracle : Nat → Nat) (s al : Nat)
    (hal : 0 < al) (hwf : WF a) :
    ∃ p a2, a.allocate oracle s al = (some p, a2) ∧
      WF a2 ∧
      (blockOf a2 a2.mem_block_latest_idx).buffer ≤ p ∧
      p + s ≤ (blockOf a2 a2.mem_block_latest_idx).buffer +
        (blockOf a2 a2.mem_block_latest_idx).offset ∧
      (a2.mem_block_latest_idx < a.mem_blocks.length →
        a2.mem_block_latest_idx = a.mem_block_latest_idx ∧
        (blockOf a a.mem_block_latest_idx).buffer +
          (blockOf a a.mem_block_latest_idx).offset ≤ p) := by
  by_cases hf : (a.activeBlock.offset + s ≤ a.activeBlock.size ∧
      (a.activeBlock.buffer + a.activeBlock.offset) % al = 0)
  · simp only [ArenaV2.allocate, if_pos hf]
    refine ⟨_, _, rfl, ?_, ?_, ?_, ?_⟩
    · exact wf_set_active a _ hwf rfl (by dsimp only; exact hf.1)
    · dsimp only
      rw [blockOf_set_self a _ _ hwf.1]
      dsimp only
      omega
    · dsimp only
      rw [blockOf_set_self a _ _ hwf.1]
      dsimp only
      omega
    · intro _
      rw [← activeBlock_eq_blockOf]
      exact ⟨rfl, le_refl _⟩
  · rcases hm : allocate_from_mem_block a.activeBlock s al with _ | ⟨q, mb2⟩
    · simp only [ArenaV2.allocate, if_neg hf, hm,
        ArenaV2.add_new_block_and_allocate]
      have hfit : (a.add_mem_block oracle (max (s + al - 1) a.block_size)).activeBlock.offset + (al - 1) + s ≤ (a.add_mem_block oracle (max (s + al - 1) a.block_size)).activeBlock.size := by
        rw [add_mem_block_activeBlock]
        dsimp only
        have := Nat.le_max_left (s + al - 1) a.block_size
        omega
      obtain ⟨q2, mb22, hm2⟩ :=
        afmb_fits ((a.add_mem_block oracle (max (s + al - 1) a.block_size)).activeBlock) s al hal hfit
      rw [hm2]
      have hst := afmb_state hm2
      have hptr := afmb_ptr hal hm2
      have hwf1 := wf_add_mem_block a oracle (max (s + al - 1) a.block_size) hwf
      refine ⟨_, _, rfl, ?_, ?_, ?_, ?_⟩
      · exact wf_set_active _ _ hwf1 hst.2.1 (by rw [hst.2.1]; exact hst.2.2.2)
      · dsimp only
        rw [blockOf_set_self _ _ _ hwf1.1]
        omega
      · dsimp only
        rw [blockOf_set_self _ _ _ hwf1.1]
        omega
      · intro hlt
        exfalso
        simp only [ArenaV2.add_mem_block] at hlt
        omega
    · simp only [ArenaV2.allocate, if_neg hf, hm]
      have hst := afmb_state hm
      have hptr := afmb_ptr hal hm
      refine ⟨_, _, rfl, ?_, ?_, ?_, ?_⟩
      · exact wf_set_active a _ hwf hst.2.1 (by rw [hst.2.1]; exact hst.2.2.2)
      · dsimp only
        rw [blockOf_set_self a _ _ hwf.1]
        omega
      · dsimp only
        rw [blockOf_set_self a _ _ hwf.1]
        omega
      · intro _
        rw [← activeBlock_eq_blockOf]
        exact ⟨rfl, hptr.1⟩

/-- A range returned by a sound allocation step is disjoint from every range
that already lay inside the bumped part of the pre-step state, provided the
blocks of the post-step state occupy disjoint address ranges. -/
theorem alloc_range_fresh {a a2 : ArenaV2} {p s : Nat}
    (hwf2 : WF a2) (hext : ArenaExtends a a2)
    (hb1 : (blockOf a2 a2.mem_block_latest_idx).buffer ≤ p)
    (hb2 : p + s ≤ (blockOf a2 a2.mem_block_latest_idx).buffer +
      (blockOf a2 a2.mem_block_latest_idx).offset)
    (hcond : a2.mem_block_latest_idx < a.mem_blocks.length →
      a2.mem_block_latest_idx = a.mem_block_latest_idx ∧
      (blockOf a a.mem_block_latest_idx).buffer +
        (blockOf a a.mem_block_latest_idx).offset ≤ p)
    (hdisj : BlocksDisj a2) :
    ∀ q t, InBlocks a q t → RangesDisj q t p s := by
  rintro q t ⟨i, hi, hq1, hq2⟩
  by_cases hij : i = a2.mem_block_latest_idx
  · subst hij
    obtain ⟨hlat, hple⟩ := hcond hi
    rw [hlat] at hq1 hq2
    exact Or.inl (by omega)
  · have hi2 : i < a2.mem_blocks.length := lt_of_lt_of_le hi hext.1
    have hb := hext.2 i hi
    have hlat2 : a2.mem_block_latest_idx < a2.mem_blocks.length := hwf2.1
    have hoff2 : (blockOf a2 i).offset ≤ (blockOf a2 i).size :=
      hwf2.2 _ (getD_mem _ _ _ hi2)
    have hofflat : (blockOf a2 a2.mem_block_latest_idx).offset ≤
        (blockOf a2 a2.mem_block_latest_idx).size :=
      hwf2.2 _ (getD_mem _ _ _ hlat2)
    rcases hdisj i hi2 a2.mem_block_latest_idx hlat2 hij with hd | hd
    · exact Or.inl (by omega)
    · exact Or.inr (by omega)

/-- Soundness of `append_new_destructor` on a well-formed arena: the chain is
extended exactly as `chain_append` describes, the memory state only grows, and
a freshly allocated `DestructorChunk` lands inside the arena on a range
disjoint from everything previously handed out. -/
theorem append_sound (a : ArenaV2) (oracle : Nat → Nat) (obj : Nat)
    (hwf : WF a) :
    ∃ c? a2, a.append_new_destructor oracle obj = (c?, a2) ∧
      WF a2 ∧ ArenaExtends a a2 ∧
      a2.block_size = a.block_size ∧ a.arena_size ≤ a2.arena_size ∧
      a2.destructor_chain = chain_append a.destructor_chain obj ∧
      ∀ c, c? = some c →
        InBlocks a2 c CHUNK_BYTES ∧
        (BlocksDisj a2 → ∀ q t, InBlocks a q t →
          RangesDisj q t c CHUNK_BYTES) := by
  have hal8 : 0 < CHUNK_ALIGN := by decide
  rcases hch : a.destructor_chain with _ | ⟨chunk, rest⟩
  · obtain ⟨c, a1, heq, hwf1, hb1, hb2, hcond⟩ :=
      allocate_sound a oracle CHUNK_BYTES CHUNK_ALIGN hal8 hwf
    have hext1 := allocate_extends a oracle CHUNK_BYTES CHUNK_ALIGN
    rw [heq] at hext1
    refine ⟨some c, { a1 with destructor_chain := [[obj]] }, ?_, ?_, ?_, ?_, ?_, ?_, ?_⟩
    · simp only [ArenaV2.append_new_destructor, hch, heq]
    · exact hwf1
    · exact hext1.1
    · exact hext1.2.2.2
    · exact hext1.2.1
    · rfl
    · intro c2 hc2
      injection hc2 with hc2
      subst hc2
      refine ⟨⟨a1.mem_block_latest_idx, hwf1.1, hb1, hb2⟩, ?_⟩
      intro hdisj q t hqt
      exact alloc_range_fresh hwf1 hext1.1 hb1 hb2 hcond hdisj q t hqt
  · by_cases hfull : chunk.length = DESTRUCTOR_CHUNK_SIZE
    · obtain ⟨c, a1, heq, hwf1, hb1, hb2, hcond⟩ :=
        allocate_sound a oracle CHUNK_BYTES CHUNK_ALIGN hal8 hwf
      have hext1 := allocate_extends a oracle CHUNK_BYTES CHUNK_ALIGN
      rw [heq] at hext1
      refine ⟨some c, { a1 with destructor_chain := [obj] :: chunk :: rest },
        ?_, ?_, ?_, ?_, ?_, ?_, ?_⟩
      · simp only [ArenaV2.append_new_destructor, hch, if_pos hfull, heq]
      · exact hwf1
      · exact hext1.1
      · exact hext1.2.2.2
      · exact hext1.2.1
      · simp [chain_append, if_pos hfull]
      · intro c2 hc2
        injection hc2 with hc2
        subst hc2
        refine ⟨⟨a1.mem_block_latest_idx, hwf1.1, hb1, hb2⟩, ?_⟩
        intro hdisj q t hqt
        exact alloc_range_fresh hwf1 hext1.1 hb1 hb2 hcond hdisj q t hqt
    · refine ⟨none, { a with destructor_chain := (chunk ++ [obj]) :: rest },
        ?_, ?_, ?_, ?_, ?_, ?_, ?_⟩
      · simp only [ArenaV2.append_new_destructor, hch, if_neg hfull]
      · exact hwf
      · exact extends_refl a
      · rfl
      · exact le_refl _
      · simp [chain_append, if_neg hfull]
      · intro c hc
        exact Option.noConfusion hc

/-- Soundness of one `create<T>` call on a well-formed arena: the object is
allocated on a fresh range, registration (when requested) extends the chain by
exactly the object, and an internally allocated `DestructorChunk` also lands
on a fresh range. -/
theorem create_sound (a : ArenaV2) (oracle : Nat → Nat) (s al : Nat)
    (nt : Bool) (hal : 0 < al) (hwf : WF a) :
    ∃ p c? a2, a.create oracle s al nt = (some p, c?, a2) ∧
      WF a2 ∧ ArenaExtends a a2 ∧
      a2.block_size = a.block_size ∧ a.arena_size ≤ a2.arena_size ∧
      a2.destructor_chain =
        (if nt then chain_append a.destructor_chain p else a.destructor_chain) ∧
      InBlocks a2 p s ∧
      (BlocksDisj a2 → ∀ q t, InBlocks a q t → RangesDisj q t p s) ∧
      ∀ c, c? = some c →
        InBlocks a2 c CHUNK_BYTES ∧
        (BlocksDisj a2 → RangesDisj p s c CHUNK_BYTES ∧
          ∀ q t, InBlocks a q t → RangesDisj q t c CHUNK_BYTES) := by
  obtain ⟨p, a1, heq, hwf1, hb1, hb2, hcond⟩ := allocate_sound a oracle s al hal hwf
  have hext1 := allocate_extends a oracle s al
  rw [heq] at hext1
  have hin1 : InBlocks a1 p s := ⟨a1.mem_block_latest_idx, hwf1.1, hb1, hb2⟩
  cases nt with
  | false =>
    refine ⟨p, none, a1, ?_, hwf1, hext1.1, hext1.2.2.2, hext1.2.1, ?_, hin1, ?_, ?_⟩
    · simp [ArenaV2.create, heq]
    · simpa using hext1.2.2.1
    · intro hdisj q t hqt
      exact alloc_range_fresh hwf1 hext1.1 hb1 hb2 hcond hdisj q t hqt
    · intro c hc
      exact Option.noConfusion hc
  | true =>
    obtain ⟨c?, a2, heq2, hwf2, hext2, hbs2, has2, hchain2, hchunk2⟩ :=
      append_sound a1 oracle p hwf1
    refine ⟨p, c?, a2, ?_, hwf2, extends_trans hext1.1 hext2,
      hbs2.trans hext1.2.2.2, le_trans hext1.2.1 has2, ?_, ?_, ?_, ?_⟩
    · simp only [ArenaV2.create, heq, if_pos, heq2]
    · rw [hchain2, hext1.2.2.1]
      simp
    · exact InBlocks_mono hext2 hin1
    · intro hdisj q t hqt
      exact alloc_range_fresh hwf1 hext1.1 hb1 hb2 hcond
        (BlocksDisj_anti hext2 hdisj) q t hqt
    · intro c hc
      obtain ⟨hcin, hcfresh⟩ := hchunk2 c hc
      refine ⟨hcin, fun hdisj => ⟨?_, ?_⟩⟩
      · exact hcfresh hdisj p s hin1
      · intro q t hqt
        exact hcfresh hdisj q t (InBlocks_mono hext1.1 hqt)

/-! ### Run-level lemmas -/

theorem allocate_raw_eq (a : ArenaV2) (oracle : Nat → Nat) (s al : Nat) :
    a.allocate_raw oracle s al = a.allocate oracle s al := rfl

theorem init_wf (oracle : Nat → Nat) (bs : Nat) : WF (ArenaV2.init oracle bs) := by
  refine ⟨by simp [ArenaV2.init, ArenaV2.add_mem_block], fun mb hmb => ?_⟩
  simp [ArenaV2.init, ArenaV2.add_mem_block] at hmb
  subst hmb
  exact Nat.zero_le _

theorem runAlloc_count_mono (oracle : Nat → Nat) (reqs : List (Nat × Nat)) :
    ∀ a : ArenaV2,
    a.mem_blocks.length ≤ (runAlloc oracle reqs a).mem_blocks.length := by
  induction reqs with
  | nil => intro a; exact le_refl _
  | cons r rest ih =>
    intro a
    obtain ⟨s, al⟩ := r
    rw [runAlloc]
    exact le_trans (allocate_extends a oracle s al).1.1 (ih _)

theorem runAlloc_clear2 (oracle : Nat → Nat) (reqs : List (Nat × Nat)) :
    ∀ a : ArenaV2,
    (runAlloc oracle reqs a).mem_blocks.length = a.mem_blocks.length →
    (ArenaV2.clear (runAlloc oracle reqs a)).2 = (ArenaV2.clear a).2 := by
  induction reqs with
  | nil => intro a _; rfl
  | cons r rest ih =>
    intro a h
    obtain ⟨s, al⟩ := r
    rw [runAlloc] at h ⊢
    have h1 := (allocate_extends a oracle s al).1.1
    have h2 := runAlloc_count_mono oracle rest (a.allocate_raw oracle s al).2
    have hstep : (a.allocate oracle s al).2.mem_blocks.length =
        a.mem_blocks.length := by
      rw [allocate_raw_eq] at h h2
      omega
    rw [ih _ (by rw [allocate_raw_eq] at h ⊢; omega)]
    exact allocate_clear2 a oracle s al hstep

theorem clear2_init (oracle : Nat → Nat) (bs : Nat) :
    (ArenaV2.clear (ArenaV2.init oracle bs)).2 = ArenaV2.init oracle bs := rfl

/-- Master induction over a run of `create<T>` calls: the final state is
well-formed and extends the start state; the destructor chain is exactly the
fold of `chain_append` over the registered objects; one object is registered
per non-trivially-destructible request; every handed-out range lies inside the
final state's bumped memory; and — when the blocks occupy disjoint address
ranges — all handed-out ranges are pairwise disjoint and disjoint from
anything already inside the start state's bumped memory. -/
theorem runCreate_sound (oracle : Nat → Nat) (reqs : List CreateReq) :
    ∀ a : ArenaV2, WF a → (∀ r ∈ reqs, 0 < r.align) →
    WF (runCreate oracle reqs a).state ∧
    ArenaExtends a (runCreate oracle reqs a).state ∧
    (runCreate oracle reqs a).state.destructor_chain =
      List.foldl chain_append a.destructor_chain (runCreate oracle reqs a).regs ∧
    (runCreate oracle reqs a).regs.length =
      (reqs.filter (fun r => r.nontrivial)).length ∧
    (∀ e ∈ (runCreate oracle reqs a).trace,
      InBlocks (runCreate oracle reqs a).state e.1 e.2) ∧
    (BlocksDisj (runCreate oracle reqs a).state →
      (∀ q t, InBlocks a q t → ∀ e ∈ (runCreate oracle reqs a).trace,
        RangesDisj q t e.1 e.2) ∧
      List.Pairwise (fun e1 e2 => RangesDisj e1.1 e1.2 e2.1 e2.2)
        (runCreate oracle reqs a).trace) := by
  induction reqs with
  | nil =>
    intro a hwf _
    refine ⟨hwf, extends_refl a, rfl, rfl, ?_, ?_⟩
    · intro e he; exact absurd he (List.not_mem_nil _)
    · intro _
      exact ⟨fun q t _ e he => absurd he (List.not_mem_nil _), List.Pairwise.nil⟩
  | cons r rest ih =>
    intro a hwf hpos
    have hal : 0 < r.align := hpos r (List.mem_cons_self _ _)
    obtain ⟨p, c?, a2, heqc, hwf2, hext2, hbs2, has2, hchain2, hin2, hfresh2,
      hchunk2⟩ := create_sound a oracle r.size r.align r.nontrivial hal hwf
    have hrc : runCreate oracle (r :: rest) a =
        ⟨(p, r.size) :: (chunkTrace c? ++ (runCreate oracle rest a2).trace),
         (if r.nontrivial then p :: (runCreate oracle rest a2).regs
          else (runCreate oracle rest a2).regs),
         (runCreate oracle rest a2).state⟩ := by
      simp only [runCreate, heqc]
    obtain ⟨ihwf, ihext, ihchain, ihlen, ihin, ihdisj⟩ :=
      ih a2 hwf2 (fun x hx => hpos x (List.mem_cons_of_mem _ hx))
    rw [hrc]
    refine ⟨ihwf, extends_trans hext2 ihext, ?_, ?_, ?_, ?_⟩
    · dsimp only
      rw [ihchain, hchain2]
      cases r.nontrivial with
      | false => simp
      | true => simp [List.foldl_cons]
    · dsimp only
      cases hnt : r.nontrivial with
      | false => simpa [List.filter, hnt] using ihlen
      | true => simpa [List.filter, hnt] using ihlen
    · dsimp only
      intro e he
      rcases List.mem_cons.mp he with he | he
      · subst he
        exact InBlocks_mono ihext hin2
      · rcases List.mem_append.mp he with he | he
        · rcases hc : c? with _ | c
          · subst hc; simp [chunkTrace] at he
          · subst hc
            simp only [chunkTrace, List.mem_singleton] at he
            subst he
            exact InBlocks_mono ihext (hchunk2 c rfl).1
        · exact ihin e he
    · dsimp only
      intro hdisj
      have hdisj2 : BlocksDisj a2 := BlocksDisj_anti ihext hdisj
      obtain ⟨ihold, ihpw⟩ := ihdisj hdisj
      have hhead : ∀ e ∈ chunkTrace c? ++ (runCreate oracle rest a2).trace,
          RangesDisj p r.size e.1 e.2 := by
        intro e he
        rcases List.mem_append.mp he with he | he
        · rcases hc : c? with _ | c
          · subst hc; simp [chunkTrace] at he
          · subst hc
            simp only [chunkTrace, List.mem_singleton] at he
            subst he
            exact ((hchunk2 c rfl).2 hdisj2).1
        · exact ihold p r.size hin2 e he
      constructor
      · intro q t hqt e he
        rcases List.mem_cons.mp he with he | he
        · subst he
          exact hfresh2 hdisj2 q t hqt
        · rcases List.mem_append.mp he with he | he
          · rcases hc : c? with _ | c
            · subst hc; simp [chunkTrace] at he
            · subst hc
              simp only [chunkTrace, List.mem_singleton] at he
              subst he
              exact ((hchunk2 c rfl).2 hdisj2).2 q t hqt
          · exact ihold q t (InBlocks_mono hext2 hqt) e he
      · refine List.pairwise_cons.mpr ⟨hhead, ?_⟩
        refine List.pairwise_append.mpr ⟨?_, ihpw, ?_⟩
        · rcases hc : c? with _ | c
          · exact List.Pairwise.nil
          · exact List.pairwise_singleton _ _
        · intro e1 he1 e2 he2
          rcases hc : c? with _ | c
          · subst hc; simp [chunkTrace] at he1
          · subst hc
            simp only [chunkTrace, List.mem_singleton] at he1
            subst he1
            exact ihold c CHUNK_BYTES (hchunk2 c rfl).1 e2 he2

/-! ### Destructor-chain order -/

theorem clear_invocations_append (ch : List (List Nat)) (d : Nat) :
    clear_invocations (chain_append ch d) = d :: clear_invocations ch := by
  cases ch with
  | nil => rfl
  | cons c rest =>
    by_cases hfull : c.length = DESTRUCTOR_CHUNK_SIZE
    · simp [chain_append, hfull, clear_invocations]
    · simp [chain_append, hfull, clear_invocations]

theorem clear_invocations_foldl (l : List Nat) : ∀ ch : List (List Nat),
    clear_invocations (List.foldl chain_append ch l) =
      l.reverse ++ clear_invocations ch := by
  induction l with
  | nil => intro ch; simp
  | cons d rest ih =>
    intro ch
    rw [List.foldl_cons, ih, clear_invocations_append]
    simp

theorem create_false_chain (a : ArenaV2) (oracle : Nat → Nat) (s al : Nat) :
    (a.create oracle s al false).2.2.destructor_chain = a.destructor_chain := by
  rcases h : a.allocate oracle s al with ⟨p?, a1⟩
  have hch : a1.destructor_chain = a.destructor_chain := by
    have h2 := (allocate_extends a oracle s al).2.2.1
    rw [h] at h2
    exact h2
  rcases p? with _ | p <;> simp [ArenaV2.create, h] <;> exact hch

theorem runCreate_chain_trivial (oracle : Nat → Nat) (reqs : List CreateReq) :
    ∀ a : ArenaV2, (∀ r ∈ reqs, r.nontrivial = false) →
    (runCreate oracle reqs a).state.destructor_chain = a.destructor_chain := by
  induction reqs with
  | nil => intro a _; rfl
  | cons r rest ih =>
    intro a h
    have hr : r.nontrivial = false := h r (List.mem_cons_self _ _)
    rcases hc : a.create oracle r.size r.align r.nontrivial with ⟨p?, c?, a1⟩
    have hch : a1.destructor_chain = a.destructor_chain := by
      rw [hr] at hc
      have h2 := create_false_chain a oracle r.size r.align
      rw [hc] at h2
      exact h2
    have hrest := ih a1 (fun x hx => h x (List.mem_cons_of_mem _ hx))
    rcases p? with _ | p
    · simp only [runCreate, hc]
      rw [hrest, hch]
    · simp only [runCreate, hc]
      rw [hrest, hch]

theorem map_zero_idem (l : List MemBlock) :
    (l.map (fun mb => { mb with offset := 0 })).map
      (fun mb => { mb with offset := 0 }) =
    l.map (fun mb => { mb with offset := 0 }) := by
  induction l with
  | nil => rfl
  | cons x xs ih => simp only [List.map_cons, ih]

theorem append_extends (a : ArenaV2) (oracle : Nat → Nat) (obj : Nat) :
    ArenaExtends a (a.append_new_destructor oracle obj).2 ∧
    a.arena_size ≤ (a.append_new_destructor oracle obj).2.arena_size := by
  rcases hch : a.destructor_chain with _ | ⟨chunk, rest⟩
  · rcases h : a.allocate oracle CHUNK_BYTES CHUNK_ALIGN with ⟨c?, a1⟩
    have hext := allocate_extends a oracle CHUNK_BYTES CHUNK_ALIGN
    rw [h] at hext
    rcases c? with _ | c <;>
      simp only [ArenaV2.append_new_destructor, hch, h] <;>
      exact ⟨hext.1, hext.2.1⟩
  · by_cases hfull : chunk.length = DESTRUCTOR_CHUNK_SIZE
    · rcases h : a.allocate oracle CHUNK_BYTES CHUNK_ALIGN with ⟨c?, a1⟩
      have hext := allocate_extends a oracle CHUNK_BYTES CHUNK_ALIGN
      rw [h] at hext
      rcases c? with _ | c <;>
        simp only [ArenaV2.append_new_destructor, hch, if_pos hfull, h] <;>
        exact ⟨hext.1, hext.2.1⟩
    · simp only [ArenaV2.append_new_destructor, hch, if_neg hfull]
      exact ⟨extends_refl a, le_refl _⟩

theorem create_extends (a : ArenaV2) (oracle : Nat → Nat) (s al : Nat)
    (nt : Bool) :
    ArenaExtends a (a.create oracle s al nt).2.2 ∧
    a.arena_size ≤ (a.create oracle s al nt).2.2.arena_size := by
  rcases h : a.allocate oracle s al with ⟨p?, a1⟩
  have hext := allocate_extends a oracle s al
  rw [h] at hext
  rcases p? with _ | p
  · simp only [ArenaV2.create, h]
    exact ⟨hext.1, hext.2.1⟩
  · cases nt with
    | false =>
      have hc : a.create oracle s al false = (some p, none, a1) := by
        simp [ArenaV2.create, h]
      rw [hc]
      exact ⟨hext.1, hext.2.1⟩
    | true =>
      rcases h2 : a1.append_new_destructor oracle p with ⟨c?, a2⟩
      have hc : a.create oracle s al true = (some p, c?, a2) := by
        simp [ArenaV2.create, h, h2]
      rw [hc]
      have happ := append_extends a1 oracle p
      rw [h2] at happ
      exact ⟨extends_trans hext.1 happ.1, le_trans hext.2.1 happ.2⟩

theorem getD_map_zero (l : List MemBlock) (i : Nat) (hi : i < l.length) :
    (l.map (fun mb => { mb with offset := 0 })).getD i ⟨0, 0, 0⟩ =
    { l.getD i ⟨0, 0, 0⟩ with offset := 0 } := by
  induction l generalizing i with
  | nil => simp at hi
  | cons x xs ih =>
    cases i with
    | zero => rfl
    | succ n =>
      simp only [List.map_cons, List.getD_cons_succ]
      exact ih n (by simpa using hi)

/-! ### The claims -/

/-- C1 (amended): calling `clear()` leaves `get_number_of_allocated_blocks`
unchanged and resets every block's offset to zero; and if the pre-clear
allocation sequence, run from the arena's freshly constructed one-block state,
never grew a new block, then replaying the identical sequence after `clear()`
succeeds without creating any new block (the block count stays the same
throughout the replay).  (The original claim asserted the replay creates no
new block for every pre-clear sequence; `C1_counterexample` refutes that: when
the pre-clear run grew extra blocks, the replay grows fresh blocks instead of
reusing the retained ones, because `allocate` never advances to an existing
later block — it only appends.) -/
theorem C1_clear_retains_blocks_and_replay (oracle : Nat → Nat) (bs : Nat)
    (reqs : List (Nat × Nat)) :
    (ArenaV2.clear (runAlloc oracle reqs (ArenaV2.init oracle bs))).2.get_number_of_allocated_blocks =
      (runAlloc oracle reqs (ArenaV2.init oracle bs)).get_number_of_allocated_blocks ∧
    (∀ mb ∈ (ArenaV2.clear (runAlloc oracle reqs (ArenaV2.init oracle bs))).2.mem_blocks,
      mb.offset = 0) ∧
    ((runAlloc oracle reqs (ArenaV2.init oracle bs)).get_number_of_allocated_blocks =
        (ArenaV2.init oracle bs).get_number_of_allocated_blocks →
      (runAlloc oracle reqs
        (ArenaV2.clear (runAlloc oracle reqs (ArenaV2.init oracle bs))).2).get_number_of_allocated_blocks =
      (runAlloc oracle reqs (ArenaV2.init oracle bs)).get_number_of_allocated_blocks) := by
  refine ⟨?_, ?_, ?_⟩
  · simp [ArenaV2.clear, ArenaV2.get_number_of_allocated_blocks]
  · intro mb hmb
    simp only [ArenaV2.clear] at hmb
    rw [List.mem_map] at hmb
    obtain ⟨x, _, hx⟩ := hmb
    rw [← hx]
  · intro h
    have hcl := runAlloc_clear2 oracle reqs (ArenaV2.init oracle bs) h
    rw [hcl, clear2_init]

/-- C1 counterexample: with a 16-byte block size and the concrete base-address
oracle `oracle0`, the sequence `[(16,1),(16,1)]` grows the arena to two
blocks; after `clear()` the block count is still two, but replaying the
identical sequence ends with three blocks — the replay does create a new
block, contradicting the claim as stated. -/
theorem C1_counterexample :
    (runAlloc oracle0 [(16, 1), (16, 1)] (ArenaV2.init oracle0 16)).get_number_of_allocated_blocks = 2 ∧
    (ArenaV2.clear (runAlloc oracle0 [(16, 1), (16, 1)] (ArenaV2.init oracle0 16))).2.get_number_of_allocated_blocks = 2 ∧
    (runAlloc oracle0 [(16, 1), (16, 1)]
      (ArenaV2.clear (runAlloc oracle0 [(16, 1), (16, 1)] (ArenaV2.init oracle0 16))).2).get_number_of_allocated_blocks = 3 := by
  decide

/-- C1 witness: a concrete single-block run replayed after `clear()` with an
unchanged block count. -/
theorem C1_witness :
    (runAlloc oracle0 [(8, 1), (8, 1)]
      (ArenaV2.clear (runAlloc oracle0 [(8, 1), (8, 1)] (ArenaV2.init oracle0 1024))).2).get_number_of_allocated_blocks =
    (runAlloc oracle0 [(8, 1), (8, 1)] (ArenaV2.init oracle0 1024)).get_number_of_allocated_blocks :=
  (C1_clear_retains_blocks_and_replay oracle0 1024 [(8, 1), (8, 1)]).2.2 (by decide)

/-- C2: for every sequence of `create<T>` calls on one arena since its last
reset (power-of-two alignments, as `alignof` always is), a single `clear()`
invokes the destructor of each registered object exactly once and in the exact
reverse of construction order across the whole session, including across
destructor-chunk boundaries: the invocation list equals the reverse of the
registration list, and one object is registered per non-trivially-destructible
`create`. -/
theorem C2_destruction_order (oracle : Nat → Nat) (bs : Nat)
    (reqs : List CreateReq) (hpow : ∀ r ∈ reqs, ∃ k, r.align = 2 ^ k) :
    (ArenaV2.clear (runCreate oracle reqs (ArenaV2.init oracle bs)).state).1 =
      (runCreate oracle reqs (ArenaV2.init oracle bs)).regs.reverse ∧
    (runCreate oracle reqs (ArenaV2.init oracle bs)).regs.length =
      (reqs.filter (fun r => r.nontrivial)).length := by
  have hpos : ∀ r ∈ reqs, 0 < r.align := by
    intro r hr
    obtain ⟨k, hk⟩ := hpow r hr
    rw [hk]
    exact pow_pos (by norm_num) k
  obtain ⟨_, _, hchain, hlen, _, _⟩ :=
    runCreate_sound oracle reqs (ArenaV2.init oracle bs) (init_wf oracle bs) hpos
  refine ⟨?_, hlen⟩
  show clear_invocations _ = _
  rw [hchain]
  rw [show (ArenaV2.init oracle bs).destructor_chain = [] from rfl]
  rw [clear_invocations_foldl]
  simp [clear_invocations]

/-- C2 witness: three concrete `create` calls, two of them with observable
destructors (the second one also forces an internal destructor-chunk
allocation); `clear()` reports the registered objects in reverse order. -/
theorem C2_witness :
    (ArenaV2.clear (runCreate oracle0
      [⟨8, 8, false⟩, ⟨16, 8, true⟩, ⟨4, 4, true⟩]
      (ArenaV2.init oracle0 16)).state).1 =
    (runCreate oracle0 [⟨8, 8, false⟩, ⟨16, 8, true⟩, ⟨4, 4, true⟩]
      (ArenaV2.init oracle0 16)).regs.reverse :=
  (C2_destruction_order oracle0 16 [⟨8, 8, false⟩, ⟨16, 8, true⟩, ⟨4, 4, true⟩]
    (by
      intro r hr
      simp only [List.mem_cons, List.not_mem_nil, or_false] at hr
      rcases hr with rfl | rfl | rfl
      · exact ⟨3, rfl⟩
      · exact ⟨3, rfl⟩
      · exact ⟨2, rfl⟩)).1

/-- C3: for every call `allocate_raw(size, align)` with `align` a power of
two, the returned pointer's address is a multiple of `align`, regardless of
whether the request is served by the fast path, the padded slow path, or a
freshly grown block. -/
theorem C3_allocate_raw_alignment (oracle : Nat → Nat) (a : ArenaV2)
    (size align : Nat) (hpow : ∃ k, align = 2 ^ k) (p : Nat) (a2 : ArenaV2)
    (h : a.allocate_raw oracle size align = (some p, a2)) :
    p % align = 0 := by
  obtain ⟨k, rfl⟩ := hpow
  rw [allocate_raw_eq] at h
  exact allocate_mod a oracle size _ (pow_pos (by norm_num) k) h

/-- C3 witness: a concrete fast-path allocation returns the 8-aligned address
4096. -/
theorem C3_witness : (4096 : Nat) % 8 = 0 :=
  C3_allocate_raw_alignment oracle0 (ArenaV2.init oracle0 16) 8 8 ⟨3, rfl⟩ 4096
    ((ArenaV2.init oracle0 16).allocate_raw oracle0 8 8).2 (by decide)

/-- C4 (amended): whenever the active block cannot satisfy
`allocate_raw(size, align)` even after padding (power-of-two `align`), the
engine appends exactly one new block of size
`max(size + align - 1, configured_block_size)`, makes it the active block, and
the retried allocation from that fresh block succeeds (never returns null)
with the requested alignment — so the block count after such a call is
strictly greater than before.  (The original claim additionally asserted that
every request with `size` greater than the configured block size grows the
block count; `C4_counterexample` refutes that: a large-alignment request can
leave the active block with more free space than `block_size`, and a later
larger-than-`block_size` request is then served from that leftover without
growing.) -/
theorem C4_grow_on_overflow (oracle : Nat → Nat) (a : ArenaV2)
    (size align : Nat) (hpow : ∃ k, align = 2 ^ k)
    (hfail : allocate_from_mem_block a.activeBlock size align = none) :
    (∃ p, (a.allocate_raw oracle size align).1 = some p ∧ p % align = 0) ∧
    (a.allocate_raw oracle size align).2.get_number_of_allocated_blocks =
      a.get_number_of_allocated_blocks + 1 ∧
    (a.allocate_raw oracle size align).2.mem_block_latest_idx =
      a.get_number_of_allocated_blocks ∧
    (blockOf (a.allocate_raw oracle size align).2
      (a.allocate_raw oracle size align).2.mem_block_latest_idx).size =
      max (size + align - 1) a.get_single_block_size := by
  obtain ⟨k, rfl⟩ := hpow
  have hal : 0 < 2 ^ k := pow_pos (by norm_num) k
  have hnf := afmb_none_no_fast hal hfail
  have hfit : (a.add_mem_block oracle (max (size + 2 ^ k - 1) a.block_size)).activeBlock.offset + (2 ^ k - 1) + size ≤ (a.add_mem_block oracle (max (size + 2 ^ k - 1) a.block_size)).activeBlock.size := by
    rw [add_mem_block_activeBlock]
    dsimp only
    have := Nat.le_max_left (size + 2 ^ k - 1) a.block_size
    omega
  obtain ⟨q2, mb22, hm2⟩ :=
    afmb_fits ((a.add_mem_block oracle (max (size + 2 ^ k - 1) a.block_size)).activeBlock) size (2 ^ k) hal hfit
  have hst := afmb_state hm2
  have hlat1 : (a.add_mem_block oracle (max (size + 2 ^ k - 1) a.block_size)).mem_block_latest_idx < (a.add_mem_block oracle (max (size + 2 ^ k - 1) a.block_size)).mem_blocks.length := by
    simp [ArenaV2.add_mem_block]
  simp only [ArenaV2.allocate_raw, ArenaV2.allocate, if_neg hnf, hfail,
    ArenaV2.add_new_block_and_allocate, hm2]
  refine ⟨⟨q2, rfl, (afmb_ptr hal hm2).2.2⟩, ?_, ?_, ?_⟩
  · simp [ArenaV2.get_number_of_allocated_blocks, ArenaV2.add_mem_block]
  · simp [ArenaV2.get_number_of_allocated_blocks, ArenaV2.add_mem_block]
  · dsimp only
    rw [blockOf_set_self _ _ _ hlat1]
    rw [hst.2.1, add_mem_block_activeBlock]
    rfl

/-- C4 counterexample: with block size 2, the request `(5, 16)` grows a
20-byte block and leaves 15 free bytes in it; the follow-up request `(3, 1)`
has `size` greater than the configured block size yet is served from the
leftover space — the block count does not grow. -/
theorem C4_counterexample :
    ((ArenaV2.init oracle0 2).allocate_raw oracle0 5 16).2.get_single_block_size < 3 ∧
    (((ArenaV2.init oracle0 2).allocate_raw oracle0 5 16).2.allocate_raw oracle0 3 1).2.get_number_of_allocated_blocks =
      ((ArenaV2.init oracle0 2).allocate_raw oracle0 5 16).2.get_number_of_allocated_blocks ∧
    (((ArenaV2.init oracle0 2).allocate_raw oracle0 5 16).2.allocate_raw oracle0 3 1).1.isSome = true := by
  decide

/-- C4 witness: the concrete request `(5, 16)` on a fresh arena with block
size 2 overflows the active block even after padding and takes the grow
path. -/
theorem C4_witness :
    (∃ p, ((ArenaV2.init oracle0 2).allocate_raw oracle0 5 16).1 = some p ∧ p % 16 = 0) ∧
    ((ArenaV2.init oracle0 2).allocate_raw oracle0 5 16).2.get_number_of_allocated_blocks =
      (ArenaV2.init oracle0 2).get_number_of_allocated_blocks + 1 ∧
    ((ArenaV2.init oracle0 2).allocate_raw oracle0 5 16).2.mem_block_latest_idx =
      (ArenaV2.init oracle0 2).get_number_of_allocated_blocks ∧
    (blockOf ((ArenaV2.init oracle0 2).allocate_raw oracle0 5 16).2
      ((ArenaV2.init oracle0 2).allocate_raw oracle0 5 16).2.mem_block_latest_idx).size =
      max (5 + 16 - 1) (ArenaV2.init oracle0 2).get_single_block_size :=
  C4_grow_on_overflow oracle0 (ArenaV2.init oracle0 2) 5 16 ⟨4, rfl⟩ (by decide)

/-- C5: for every sequence of `create<T>` calls on one arena with no
intervening `clear()` (power-of-two alignments, as `alignof` always is), and
whenever the blocks' buffers occupy pairwise disjoint address ranges (what
`::operator new` guarantees), the byte ranges handed out by successive
allocations — internal destructor-chunk allocations included — never overlap,
regardless of how many block-growth events occurred in between; hence reading
back each constructed object's fields yields exactly the values passed to its
constructor. -/
theorem C5_ranges_disjoint (oracle : Nat → Nat) (bs : Nat)
    (reqs : List CreateReq) (hpow : ∀ r ∈ reqs, ∃ k, r.align = 2 ^ k)
    (hdisj : BlocksDisj (runCreate oracle reqs (ArenaV2.init oracle bs)).state) :
    List.Pairwise (fun e1 e2 => RangesDisj e1.1 e1.2 e2.1 e2.2)
      (runCreate oracle reqs (ArenaV2.init oracle bs)).trace := by
  have hpos : ∀ r ∈ reqs, 0 < r.align := by
    intro r hr
    obtain ⟨k, hk⟩ := hpow r hr
    rw [hk]
    exact pow_pos (by norm_num) k
  exact ((runCreate_sound oracle reqs (ArenaV2.init oracle bs)
    (init_wf oracle bs) hpos).2.2.2.2.2 hdisj).2

instance (a : ArenaV2) : Decidable (BlocksDisj a) := by
  unfold BlocksDisj
  infer_instance

/-- C5 witness: a concrete three-call run whose trace contains two object
ranges, one destructor-chunk range, and a block-growth event; all handed-out
ranges are pairwise disjoint. -/
theorem C5_witness :
    List.Pairwise (fun e1 e2 => RangesDisj e1.1 e1.2 e2.1 e2.2)
      (runCreate oracle0 [⟨8, 8, false⟩, ⟨16, 8, true⟩, ⟨4, 4, true⟩]
        (ArenaV2.init oracle0 16)).trace :=
  C5_ranges_disjoint oracle0 16 [⟨8, 8, false⟩, ⟨16, 8, true⟩, ⟨4, 4, true⟩]
    (by
      intro r hr
      simp only [List.mem_cons, List.not_mem_nil, or_false] at hr
      rcases hr with rfl | rfl | rfl
      · exact ⟨3, rfl⟩
      · exact ⟨3, rfl⟩
      · exact ⟨2, rfl⟩)
    (by decide)

/-- C6 (amended): the adapter's `allocate(n)` throws
`std::bad_array_new_length` if and only if `n * sizeof(T)` overflows the size
type (`n > SIZE_MAX / sizeof(T)`); when it does not overflow and `n` is
non-zero, the request is forwarded to the engine as `n * sizeof(T)` bytes at
`alignof(T)` and no error is signaled; and `allocate(0)` returns a null
pointer without invoking the engine.  (The original claim said every
non-overflowing request is forwarded; `C6_counterexample` refutes that at
`n = 0`, which does not overflow yet returns `nullptr` without any engine
call.) -/
theorem C6_adapter_overflow (oracle : Nat → Nat) (sizeofT alignofT : Nat)
    (a : ArenaV2) (n : Nat) :
    ((ArenaAllocator.allocate oracle sizeofT alignofT a n).1 =
        AdapterResult.badArrayNewLength ↔ n > SIZE_MAX / sizeofT) ∧
    (n ≠ 0 → ¬ n > SIZE_MAX / sizeofT →
      ArenaAllocator.allocate oracle sizeofT alignofT a n =
        (AdapterResult.forwarded
           (a.allocate_raw oracle (n * sizeofT) alignofT).1
           (n * sizeofT) alignofT,
         (a.allocate_raw oracle (n * sizeofT) alignofT).2)) ∧
    (n = 0 → ArenaAllocator.allocate oracle sizeofT alignofT a n =
      (AdapterResult.nullptr, a)) := by
  refine ⟨?_, ?_, ?_⟩
  · by_cases h0 : n = 0
    · subst h0
      simp [ArenaAllocator.allocate]
    · by_cases hov : n > SIZE_MAX / sizeofT
      · simp [ArenaAllocator.allocate, h0, hov]
      · rcases hall : a.allocate_raw oracle (n * sizeofT) alignofT with ⟨p, a1⟩
        simp [ArenaAllocator.allocate, h0, hov, hall]
  · intro h0 hov
    rcases hall : a.allocate_raw oracle (n * sizeofT) alignofT with ⟨p, a1⟩
    simp [ArenaAllocator.allocate, h0, hov, hall]
  · intro h0
    subst h0
    simp [ArenaAllocator.allocate]

/-- C6 counterexample: `n = 0` does not overflow (`¬ 0 > SIZE_MAX / 4`), yet
the adapter returns `nullptr` instead of forwarding a 0-byte request to the
engine. -/
theorem C6_counterexample :
    ¬ (0 > SIZE_MAX / 4) ∧
    (ArenaAllocator.allocate oracle0 4 4 (ArenaV2.init oracle0 16) 0).1 =
      AdapterResult.nullptr ∧
    (ArenaAllocator.allocate oracle0 4 4 (ArenaV2.init oracle0 16) 0).1 ≠
      AdapterResult.forwarded
        ((ArenaV2.init oracle0 16).allocate_raw oracle0 (0 * 4) 4).1
        (0 * 4) 4 := by
  decide

/-- C6 witness: a concrete non-overflowing request `n = 5`, `sizeof(T) = 4`
is forwarded to the engine as 20 bytes at alignment 4. -/
theorem C6_witness :
    ArenaAllocator.allocate oracle0 4 4 (ArenaV2.init oracle0 16) 5 =
      (AdapterResult.forwarded
         ((ArenaV2.init oracle0 16).allocate_raw oracle0 (5 * 4) 4).1
         (5 * 4) 4,
       ((ArenaV2.init oracle0 16).allocate_raw oracle0 (5 * 4) 4).2) :=
  (C6_adapter_overflow oracle0 4 4 (ArenaV2.init oracle0 16) 5).2.1
    (by decide) (by decide)

/-- C7: two adapters compare equal if and only if they reference the same
engine instance (object identity), so adapters over two distinct engines
compare unequal even when the engines' contents — configuration included —
are identical; and rebinding an adapter to a different element type preserves
the referenced engine, so the rebound adapter compares equal to the
original. -/
theorem C7_adapter_equality :
    (∀ a b : ArenaAllocator, a.opEq b = true ↔ a.arena = b.arena) ∧
    (∀ (engines : Nat → ArenaV2) (s1 a1 s2 a2 i j : Nat),
      i ≠ j → engines i = engines j →
      ArenaAllocator.opEq ⟨s1, a1, i⟩ ⟨s2, a2, j⟩ = false) ∧
    (∀ (x : ArenaAllocator) (s t : Nat),
      (x.rebind s t).opEq x = true ∧ x.opEq (x.rebind s t) = true) := by
  refine ⟨?_, ?_, ?_⟩
  · intro a b
    simp [ArenaAllocator.opEq]
  · intro engines s1 a1 s2 a2 i j hij _
    simp [ArenaAllocator.opEq]
    exact hij
  · intro x s t
    constructor <;> simp [ArenaAllocator.opEq, ArenaAllocator.rebind]

/-- C7 witness: two adapters over the distinct engine addresses 0 and 1
compare unequal even though the engine heap holds identical engines at both
addresses. -/
theorem C7_witness :
    ArenaAllocator.opEq ⟨4, 4, 0⟩ ⟨4, 4, 1⟩ = false :=
  C7_adapter_equality.2.1 (fun _ => ArenaV2.init oracle0 16) 4 4 4 4 0 1
    (by decide) rfl

/-- C8: every public operation preserves the state invariants — `allocate_raw`
and `create` extend the state (the block sequence is append-only with every
existing block keeping its buffer and capacity, offsets only increase) and
never decrease `get_arena_size`; `clear()` keeps the block count, every
block's buffer and capacity, and `get_arena_size`, and rewinds all offsets to
zero. -/
theorem C8_state_invariants :
    (∀ (oracle : Nat → Nat) (a : ArenaV2) (size align : Nat),
      ArenaExtends a (a.allocate_raw oracle size align).2 ∧
      a.get_arena_size ≤ (a.allocate_raw oracle size align).2.get_arena_size) ∧
    (∀ (oracle : Nat → Nat) (a : ArenaV2) (size align : Nat) (nt : Bool),
      ArenaExtends a (a.create oracle size align nt).2.2 ∧
      a.get_arena_size ≤ (a.create oracle size align nt).2.2.get_arena_size) ∧
    (∀ a : ArenaV2,
      (ArenaV2.clear a).2.get_number_of_allocated_blocks =
        a.get_number_of_allocated_blocks ∧
      (∀ i, i < a.mem_blocks.length →
        (blockOf (ArenaV2.clear a).2 i).buffer = (blockOf a i).buffer ∧
        (blockOf (ArenaV2.clear a).2 i).size = (blockOf a i).size ∧
        (blockOf (ArenaV2.clear a).2 i).offset = 0) ∧
      (ArenaV2.clear a).2.get_arena_size = a.get_arena_size) := by
  refine ⟨?_, ?_, ?_⟩
  · intro oracle a size align
    have h := allocate_extends a oracle size align
    exact ⟨h.1, h.2.1⟩
  · intro oracle a size align nt
    exact create_extends a oracle size align nt
  · intro a
    refine ⟨?_, ?_, rfl⟩
    · simp [ArenaV2.clear, ArenaV2.get_number_of_allocated_blocks]
    · intro i hi
      have hmap : blockOf (ArenaV2.clear a).2 i =
          { blockOf a i with offset := 0 } := by
        simp only [ArenaV2.clear, blockOf]
        exact getD_map_zero a.mem_blocks i hi
      rw [hmap]
      exact ⟨rfl, rfl, rfl⟩

/-- C8 witness: after `clear()` on a concrete grown arena, block 0 keeps its
buffer and capacity and its offset is zero. -/
theorem C8_witness :
    (blockOf (ArenaV2.clear (runAlloc oracle0 [(16, 1), (16, 1)] (ArenaV2.init oracle0 16))).2 0).buffer =
      (blockOf (runAlloc oracle0 [(16, 1), (16, 1)] (ArenaV2.init oracle0 16)) 0).buffer ∧
    (blockOf (ArenaV2.clear (runAlloc oracle0 [(16, 1), (16, 1)] (ArenaV2.init oracle0 16))).2 0).size =
      (blockOf (runAlloc oracle0 [(16, 1), (16, 1)] (ArenaV2.init oracle0 16)) 0).size ∧
    (blockOf (ArenaV2.clear (runAlloc oracle0 [(16, 1), (16, 1)] (ArenaV2.init oracle0 16))).2 0).offset = 0 :=
  (C8_state_invariants.2.2
    (runAlloc oracle0 [(16, 1), (16, 1)] (ArenaV2.init oracle0 16))).2.1 0
    (by decide)

/-- C9: `clear()` is idempotent with respect to destruction — immediately
after a `clear()`, a second `clear()` invokes zero destructors and leaves all
observable state unchanged (the whole post-state is fixed, so block count,
every block offset, `get_arena_size`, and the empty destructor chain are all
unchanged); and `clear()` on an arena on which only trivially-destructible
objects were created invokes no destructors. -/
theorem C9_clear_idempotent :
    (∀ a : ArenaV2,
      ArenaV2.clear (ArenaV2.clear a).2 = ([], (ArenaV2.clear a).2)) ∧
    (∀ (oracle : Nat → Nat) (bs : Nat) (reqs : List CreateReq),
      (∀ r ∈ reqs, r.nontrivial = false) →
      (ArenaV2.clear (runCreate oracle reqs (ArenaV2.init oracle bs)).state).1 =
        []) := by
  constructor
  · intro a
    simp only [ArenaV2.clear, clear_invocations, Prod.mk.injEq,
      ArenaV2.mk.injEq, map_zero_idem]
  · intro oracle bs reqs h
    have hch := runCreate_chain_trivial oracle reqs (ArenaV2.init oracle bs) h
    show clear_invocations _ = []
    rw [hch]
    rfl

/-- C9 witness: `clear()` after a single trivially-destructible `create`
invokes no destructors. -/
theorem C9_witness :
    (ArenaV2.clear (runCreate oracle0 [⟨4, 4, false⟩]
      (ArenaV2.init oracle0 16)).state).1 = [] :=
  C9_clear_idempotent.2 oracle0 16 [⟨4, 4, false⟩] (by decide)

/-- C10: the adapter's `allocate(0)` returns a null pointer without invoking
the engine at all — no exception is thrown and the engine state (hence block
count, every offset, and total capacity) is returned unchanged. -/
theorem C10_adapter_zero (oracle : Nat → Nat) (sizeofT alignofT : Nat)
    (a : ArenaV2) :
    ArenaAllocator.allocate oracle sizeofT alignofT a 0 =
      (AdapterResult.nullptr, a) := by
  rfl
